import Mathlib

/-!
Verification of the rule-registration and request-matching engine of the
httpmocker library (a request-routable mock HTTP server written in Go).

The embedding translates `mocker.go`.  Go maps become functional maps or
association lists; the external test-server facility (`net/http/httptest`)
is modelled as a small state record; caller-supplied handlers become opaque
functions on the response-writer state; the optional logger becomes a flag,
and dispatch returns the list of lines it hands to the logger.
-/

namespace Httpmocker

/-- The part of an inbound request that the engine reads: `r.Method`,
`r.URL.Path` and `r.URL.RawQuery`. -/
structure Request where
  method : String
  path : String
  rawQuery : String

/-- State of the response writer exposed by the external server facility:
headers set so far, the explicitly written status (if `WriteHeader` was
called), and the body accumulated by writes.  An unset status means the
facility's implicit default (200) applies. -/
structure RespWriter where
  headers : List (String × String)
  status : Option Int
  body : String

/-- A fresh response writer, as handed to the dispatcher for each request. -/
def emptyWriter : RespWriter := { headers := [], status := none, body := "" }

/-- A caller-supplied `http.HandlerFunc`: opaque logic that reads the request
and transforms the response-writer state.  (Its type confines its effect to
the writer, matching the read-only use of the server during dispatch.) -/
abbrev Handler : Type := Request → RespWriter → RespWriter

/-- Go's `http.Header` (`map[string][]string`) as an association list from
header name to the stored values. -/
abbrev HttpHeader : Type := List (String × List String)

/-- Model of `http.Header.Get`: the first value stored for the name, or `""` when the
name is absent or has no values.  (Go canonicalises header names before the
lookup; names here are taken as already canonical.) -/
def HttpHeader.get (h : HttpHeader) (k : String) : String :=
  match h.find? (fun e => e.1 == k) with
  | some (_, v :: _) => v
  | _ => ""

/-- Model of `http.Header.Set` on the single-valued response-header map: replace the
entry for the name if present, else add it. -/
def setAssoc : List (String × String) → String → String → List (String × String)
  | [], k, v => [(k, v)]
  | (k', v') :: rest, k, v =>
    if k' = k then (k, v) :: rest else (k', v') :: setAssoc rest k v

/-- Lookup in the single-valued response-header map. -/
def lookupAssoc : List (String × String) → String → Option String
  | [], _ => none
  | (k', v') :: rest, k => if k' = k then some v' else lookupAssoc rest k

/-- Rule record `Response`: one configured mock response (a rule).  Defaults are the Go
zero values of the omitted struct fields (`Headers == nil` behaves as the
empty mapping in the one loop that reads it). -/
structure Response where
  method : String := ""
  path : String := ""
  query : String := ""
  code : Int := 0
  contentType : String := ""
  body : String := ""
  headers : HttpHeader := []
  handler : Option Handler := none

/-- The external test-server facility's handle (`httptest.Server`):
its bound URL and whether it has been stopped.  Modelled from the spec:
the facility exposes `start` and a `stop` that blocks until in-flight
requests finish and is guarded by the closed flag, so a redundant stop is a
no-op; the blocking wait itself is outside this state embedding. -/
structure TestFacility where
  closed : Bool
  url : String

/-- Model of `httptest.Server.Close`, abstracted to its effect on the handle state. -/
def TestFacility.close (f : TestFacility) : TestFacility := { f with closed := true }

/-- Server state `Server`: the rule store (method → path → ordered rules), the optional
logger (only its presence matters to the engine), the optional
unknown-request handler, the facility handle once started, and the bound
URL.  The nested Go maps become a total function; a missing bucket is the
empty list, which the lookups in `findResponse` treat the same way. -/
structure Server where
  responses : String → String → List Response
  hasLogger : Bool
  unknownRequestHandler : Option Handler
  httpServer : Option TestFacility
  url : String

/-- The rule store of a freshly constructed server. -/
def emptyResponses : String → String → List Response := fun _ _ => []

/-- One iteration of `AddResponses`: append the rule to the bucket for its
own `(method, path)`, creating the bucket if absent (the nil-map branches of
the Go code collapse into appending to the empty list). -/
def Server.addResponse (s : Server) (r : Response) : Server :=
  { s with responses := fun m p =>
      if m = r.method ∧ p = r.path then s.responses m p ++ [r]
      else s.responses m p }

/-- Operation `AddResponses`: add each given rule in argument order; returns the
(updated) server for fluent chaining. -/
def Server.addResponses (s : Server) (rs : List Response) : Server :=
  rs.foldl Server.addResponse s

/-- Operation `Add`: convenience for an all-static rule. -/
def Server.add (s : Server) (method path : String) (code : Int) (body : String) :
    Server :=
  s.addResponses [{ method := method, path := path, code := code, body := body }]

/-- Operation `AddEmptyResponse`: convenience for a static rule with empty body. -/
def Server.addEmptyResponse (s : Server) (method path : String) (code : Int) :
    Server :=
  s.addResponses [{ method := method, path := path, code := code }]

/-- The scan loop of `findResponse`: walk the bucket in insertion order,
remembering the most recent empty-query rule as `candidate` (after a
defensive re-check of the stored path), and return immediately on the first
rule whose non-empty query equals the raw query string. -/
def findLoop (path rawQuery : String) :
    List Response → Option Response → Option Response
  | [], candidate => candidate
  | resp :: rest, candidate =>
    if resp.path = path then
      let candidate := if resp.query = "" then some resp else candidate
      if resp.query ≠ "" ∧ resp.query = rawQuery then some resp
      else findLoop path rawQuery rest candidate
    else findLoop path rawQuery rest candidate

/-- Lookup `findResponse`: look up the bucket for the request's method and path and
scan it.  The Go nil-method-map early return and the empty-bucket early
return both collapse into the emptiness test on the functional map. -/
def Server.findResponse (s : Server) (req : Request) : Option Response :=
  let resps := s.responses req.method req.path
  if resps.length = 0 then none
  else findLoop req.path req.rawQuery resps none

/-- Logging glue `logf`: hand the line to the logger when one is configured, else do
nothing.  Modelled as the list of lines emitted. -/
def Server.logf (s : Server) (msg : String) : List String :=
  if s.hasLogger then [msg] else []

/-- Diagnostic rendering of a rule for the matched-rule log line; stands in
for the reflective struct formatting of the original (Go `%+v`), whose exact
output is not part of any contract here. -/
def formatResponse (r : Response) : String :=
  "Method:" ++ r.method ++ " Path:" ++ r.path ++ " Query:" ++ r.query ++
    " Body:" ++ r.body

/-- Dispatcher `handleRequest`: the request dispatcher.  It returns the server state it
leaves behind (the Go method could mutate its receiver; it does not), the
final response-writer state, and the log lines emitted.  Branches in source
order: unmatched request (log, optional fallback handler), delegated rule
(invoke the handler, nothing else), static rule (Content-Type, headers,
optional status, body, log). -/
def Server.handleRequest (s : Server) (req : Request) (w : RespWriter) :
    Server × RespWriter × List String :=
  let method := req.method
  let path := req.path
  match s.findResponse req with
  | none =>
    let logs := s.logf ("unknown request: " ++ method ++ " " ++ path)
    match s.unknownRequestHandler with
    | some h => (s, h req w, logs)
    | none => (s, w, logs)
  | some resp =>
    match resp.handler with
    | some h => (s, h req w, [])
    | none =>
      let w1 := { w with headers := setAssoc w.headers "Content-Type" resp.contentType }
      let hs2 := List.foldl (fun hs e => setAssoc hs e.1 (HttpHeader.get resp.headers e.1))
        w1.headers resp.headers
      let w2 := { w1 with headers := hs2 }
      let w3 := if resp.code ≠ 0 then { w2 with status := some resp.code } else w2
      let w4 := { w3 with body := w3.body ++ resp.body }
      (s, w4, s.logf ("handler : " ++ method ++ " " ++ path ++ " -> " ++ formatResponse resp))

/-- Operation `Close`: stop the facility if the server was started; a no-op before
`Start`. -/
def Server.close (s : Server) : Server :=
  match s.httpServer with
  | some f => { s with httpServer := some (TestFacility.close f) }
  | none => s

/-- Operation `Start`: record the facility handle obtained from the external
collaborator and its bound URL. -/
def Server.start (s : Server) (f : TestFacility) : Server :=
  { s with httpServer := some f, url := f.url }

/-- Constructor `Launch`: construct a server with an empty store, add the given rules,
and start it with the facility handle the environment provides. -/
def launch (rs : List Response) (f : TestFacility) : Server :=
  (Server.addResponses
    { responses := emptyResponses, hasLogger := false,
      unknownRequestHandler := none, httpServer := none, url := "" } rs).start f

/-! ### Characterization of the store and the matching scan -/

/-- The condition on which `findLoop` returns a rule immediately: a
non-empty stored query, byte-for-byte equal to the inbound raw query. -/
def exactMatch (q : String) (r : Response) : Bool :=
  decide (r.query ≠ "" ∧ r.query = q)

/-- The condition on which `findLoop` updates its candidate. -/
def emptyQuery (r : Response) : Bool :=
  decide (r.query = "")

/-- Closed form of the scan: the first exact-query match if any, else the
last empty-query rule, else the incoming candidate. -/
def scanResult (q : String) (l : List Response) (cand : Option Response) :
    Option Response :=
  match l.find? (exactMatch q) with
  | some r => some r
  | none =>
    match (l.filter emptyQuery).getLast? with
    | some r => some r
    | none => cand

/-- Membership of a rule's bucket, as a Boolean predicate. -/
def inBucket (m p : String) (r : Response) : Bool :=
  decide (r.method = m ∧ r.path = p)

theorem getLast?_cons_eq {α : Type} (a : α) (l : List α) :
    (a :: l).getLast? =
      match l.getLast? with
      | some x => some x
      | none => some a := by
  cases l with
  | nil => simp
  | cons b t =>
    rw [List.getLast?_cons_cons]
    cases h : (b :: t).getLast? with
    | none => exact absurd (List.getLast?_eq_none_iff.mp h) (by simp)
    | some x => rfl

theorem scanResult_cons_exact {q : String} {r : Response} (l : List Response)
    (cand : Option Response) (hq : r.query ≠ "" ∧ r.query = q) :
    scanResult q (r :: l) cand = some r := by
  unfold scanResult
  rw [List.find?_cons_of_pos _ (by simp only [exactMatch, decide_eq_true_eq]; exact hq)]

theorem scanResult_cons_empty {q : String} {r : Response} (l : List Response)
    (cand : Option Response) (hq : r.query = "") :
    scanResult q (r :: l) cand = scanResult q l (some r) := by
  have hx : ¬ (exactMatch q r = true) := by
    simp only [exactMatch, decide_eq_true_eq]
    exact fun hc => hc.1 hq
  have he : emptyQuery r = true := by
    simp only [emptyQuery, decide_eq_true_eq]
    exact hq
  unfold scanResult
  rw [List.find?_cons_of_neg _ hx, List.filter_cons_of_pos he]
  cases List.find? (exactMatch q) l with
  | some y => rfl
  | none =>
    rw [getLast?_cons_eq]
    cases (l.filter emptyQuery).getLast? with
    | none => rfl
    | some z => rfl

theorem scanResult_cons_skip {q : String} {r : Response} (l : List Response)
    (cand : Option Response) (hq1 : ¬(r.query ≠ "" ∧ r.query = q))
    (hq2 : r.query ≠ "") :
    scanResult q (r :: l) cand = scanResult q l cand := by
  have hx : ¬ (exactMatch q r = true) := by
    simp only [exactMatch, decide_eq_true_eq]
    exact hq1
  have he : ¬ (emptyQuery r = true) := by
    simp only [emptyQuery, decide_eq_true_eq]
    exact hq2
  unfold scanResult
  rw [List.find?_cons_of_neg _ hx, List.filter_cons_of_neg he]

theorem findLoop_cons_wrongpath {p q : String} {resp : Response}
    (rest : List Response) (cand : Option Response) (h : ¬ resp.path = p) :
    findLoop p q (resp :: rest) cand = findLoop p q rest cand := by
  simp only [findLoop]
  rw [if_neg h]

theorem findLoop_cons_empty {p q : String} {resp : Response}
    (rest : List Response) (cand : Option Response)
    (hpath : resp.path = p) (hq : resp.query = "") :
    findLoop p q (resp :: rest) cand = findLoop p q rest (some resp) := by
  simp only [findLoop]
  rw [if_pos hpath, if_pos hq, if_neg (fun hc : resp.query ≠ "" ∧ resp.query = q => hc.1 hq)]

theorem findLoop_cons_exact {p q : String} {resp : Response}
    (rest : List Response) (cand : Option Response)
    (hpath : resp.path = p) (hq : resp.query ≠ "") (hq2 : resp.query = q) :
    findLoop p q (resp :: rest) cand = some resp := by
  simp only [findLoop]
  rw [if_pos hpath, if_neg hq, if_pos ⟨hq, hq2⟩]

theorem findLoop_cons_skip {p q : String} {resp : Response}
    (rest : List Response) (cand : Option Response)
    (hpath : resp.path = p) (hq : resp.query ≠ "") (hq2 : ¬ resp.query = q) :
    findLoop p q (resp :: rest) cand = findLoop p q rest cand := by
  simp only [findLoop]
  rw [if_pos hpath, if_neg hq, if_neg (fun hc : resp.query ≠ "" ∧ resp.query = q => hq2 hc.2)]

/-- The scan loop computes the closed form on any bucket whose rules all
carry the bucket's path (so the defensive path re-check always passes). -/
theorem findLoop_eq_scanResult (p q : String) :
    ∀ (l : List Response) (cand : Option Response),
      (∀ r ∈ l, r.path = p) → findLoop p q l cand = scanResult q l cand := by
  intro l
  induction l with
  | nil => intro cand _; rfl
  | cons r rest ih =>
    intro cand hp
    have hr : r.path = p := hp r (List.mem_cons_self r rest)
    have hrest : ∀ x ∈ rest, x.path = p :=
      fun x hx => hp x (List.mem_cons_of_mem r hx)
    by_cases hq : r.query = ""
    · rw [scanResult_cons_empty rest cand hq, findLoop_cons_empty rest cand hr hq]
      exact ih (some r) hrest
    · by_cases hq2 : r.query = q
      · rw [scanResult_cons_exact rest cand ⟨hq, hq2⟩,
          findLoop_cons_exact rest cand hr hq hq2]
      · rw [scanResult_cons_skip rest cand (fun h => hq2 h.2) hq,
          findLoop_cons_skip rest cand hr hq hq2]
        exact ih cand hrest

/-- Lookup characterization: `findResponse` computes the closed form of the scan on the request's
bucket, provided the bucket's rules carry the bucket's path. -/
theorem findResponse_eq_scanResult (s : Server) (req : Request)
    (hp : ∀ r ∈ s.responses req.method req.path, r.path = req.path) :
    s.findResponse req =
      scanResult req.rawQuery (s.responses req.method req.path) none := by
  unfold Server.findResponse
  by_cases h : (s.responses req.method req.path).length = 0
  · rw [if_pos h]
    rw [List.length_eq_zero.mp h]
    rfl
  · rw [if_neg h]
    exact findLoop_eq_scanResult _ _ _ _ hp

/-- Whatever `findLoop` returns either lies in the scanned bucket — with the
re-checked path and a query that is empty or equal to the raw query — or is
the incoming candidate. -/
theorem findLoop_some (p q : String) :
    ∀ (l : List Response) (cand : Option Response) (r : Response),
      findLoop p q l cand = some r →
      (r ∈ l ∧ r.path = p ∧ (r.query = "" ∨ r.query = q)) ∨ cand = some r := by
  intro l
  induction l with
  | nil => intro cand r h; exact Or.inr h
  | cons x rest ih =>
    intro cand r h
    by_cases hx : x.path = p
    · by_cases hq : x.query = ""
      · rw [findLoop_cons_empty rest cand hx hq] at h
        rcases ih (some x) r h with hmem | hc
        · exact Or.inl ⟨List.mem_cons_of_mem x hmem.1, hmem.2⟩
        · have : x = r := Option.some.inj hc
          subst this
          exact Or.inl ⟨List.mem_cons_self x rest, hx, Or.inl hq⟩
      · by_cases hq2 : x.query = q
        · rw [findLoop_cons_exact rest cand hx hq hq2] at h
          have : x = r := Option.some.inj h
          subst this
          exact Or.inl ⟨List.mem_cons_self x rest, hx, Or.inr hq2⟩
        · rw [findLoop_cons_skip rest cand hx hq hq2] at h
          rcases ih cand r h with hmem | hc
          · exact Or.inl ⟨List.mem_cons_of_mem x hmem.1, hmem.2⟩
          · exact Or.inr hc
    · rw [findLoop_cons_wrongpath rest cand hx] at h
      rcases ih cand r h with hmem | hc
      · exact Or.inl ⟨List.mem_cons_of_mem x hmem.1, hmem.2⟩
      · exact Or.inr hc

/-- Store invariant: every rule sits in the bucket keyed by its own stored
method and path. -/
def BucketsWellFormed (s : Server) : Prop :=
  ∀ m p r, r ∈ s.responses m p → r.method = m ∧ r.path = p

theorem addResponse_responses (s : Server) (r : Response) (m p : String) :
    (s.addResponse r).responses m p =
      if r.method = m ∧ r.path = p then s.responses m p ++ [r]
      else s.responses m p := by
  unfold Server.addResponse
  dsimp only
  by_cases h : m = r.method ∧ p = r.path
  · rw [if_pos h, if_pos ⟨h.1.symm, h.2.symm⟩]
  · rw [if_neg h, if_neg (fun hc => h ⟨hc.1.symm, hc.2.symm⟩)]

theorem addResponses_responses (s : Server) (rs : List Response) (m p : String) :
    (s.addResponses rs).responses m p =
      s.responses m p ++ rs.filter (inBucket m p) := by
  induction rs generalizing s with
  | nil => simp [Server.addResponses]
  | cons r rest ih =>
    have hstep : s.addResponses (r :: rest) = (s.addResponse r).addResponses rest := by
      simp [Server.addResponses]
    rw [hstep, ih (s.addResponse r), addResponse_responses]
    by_cases h : r.method = m ∧ r.path = p
    · rw [if_pos h, List.filter_cons_of_pos (by simp [inBucket, h])]
      simp
    · rw [if_neg h, List.filter_cons_of_neg (by simp [inBucket, h])]

theorem bucketsWellFormed_addResponse (s : Server) (r : Response)
    (h : BucketsWellFormed s) : BucketsWellFormed (s.addResponse r) := by
  intro m p x hx
  rw [addResponse_responses] at hx
  by_cases hc : r.method = m ∧ r.path = p
  · rw [if_pos hc] at hx
    rcases List.mem_append.mp hx with hm | hm
    · exact h m p x hm
    · have : x = r := by simpa using hm
      subst this
      exact hc
  · rw [if_neg hc] at hx
    exact h m p x hx

theorem bucketsWellFormed_addResponses (s : Server) (rs : List Response)
    (h : BucketsWellFormed s) : BucketsWellFormed (s.addResponses rs) := by
  induction rs generalizing s with
  | nil => exact h
  | cons r rest ih =>
    have hstep : s.addResponses (r :: rest) = (s.addResponse r).addResponses rest := by
      simp [Server.addResponses]
    rw [hstep]
    exact ih (s.addResponse r) (bucketsWellFormed_addResponse s r h)

theorem bucketsWellFormed_of_empty (s : Server)
    (h : s.responses = emptyResponses) : BucketsWellFormed s := by
  intro m p r hr
  rw [h] at hr
  cases hr

/-! ### Lemmas about the response-header map -/

theorem lookupAssoc_setAssoc_self (l : List (String × String)) (k v : String) :
    lookupAssoc (setAssoc l k v) k = some v := by
  induction l with
  | nil => simp [setAssoc, lookupAssoc]
  | cons e rest ih =>
    rcases e with ⟨ek, ev⟩
    by_cases h : ek = k
    · simp [setAssoc, lookupAssoc, h]
    · simpa [setAssoc, lookupAssoc, h] using ih

theorem lookupAssoc_setAssoc_other (l : List (String × String)) (k k' v : String)
    (h : k' ≠ k) : lookupAssoc (setAssoc l k' v) k = lookupAssoc l k := by
  induction l with
  | nil => simp [setAssoc, lookupAssoc, h]
  | cons e rest ih =>
    rcases e with ⟨ek, ev⟩
    by_cases he : ek = k'
    · subst he
      simp [setAssoc, lookupAssoc, h]
    · have h2 : ¬ k = k' := fun hh => h hh.symm
      by_cases hk : ek = k
      · simp [setAssoc, lookupAssoc, he, hk, h2]
      · simpa [setAssoc, lookupAssoc, he, hk] using ih

/-- The header-setting fold of the static branch, in isolation. -/
def setHeadersFold (src : HttpHeader) (base : List (String × String)) :
    List (String × String) :=
  List.foldl (fun hs e => setAssoc hs e.1 (HttpHeader.get src e.1)) base src

theorem lookup_foldl_set_of_not_mem (src : HttpHeader) (k : String) :
    ∀ (es : HttpHeader) (base : List (String × String)),
      (∀ vs, (k, vs) ∉ es) →
      lookupAssoc (List.foldl (fun hs e => setAssoc hs e.1 (HttpHeader.get src e.1)) base es) k
        = lookupAssoc base k := by
  intro es
  induction es with
  | nil => intro base _; rfl
  | cons e rest ih =>
    intro base hk
    have hne : e.1 ≠ k := by
      intro he
      exact hk e.2 (by rw [← he]; exact List.mem_cons_self e rest)
    have hrest : ∀ vs, (k, vs) ∉ rest :=
      fun vs hv => hk vs (List.mem_cons_of_mem e hv)
    rw [List.foldl_cons, ih _ hrest, lookupAssoc_setAssoc_other _ _ _ _ hne]

theorem lookup_foldl_set_of_mem (src : HttpHeader) (k : String) :
    ∀ (es : HttpHeader) (base : List (String × String)),
      (∃ vs, (k, vs) ∈ es) →
      lookupAssoc (List.foldl (fun hs e => setAssoc hs e.1 (HttpHeader.get src e.1)) base es) k
        = some (HttpHeader.get src k) := by
  intro es
  induction es with
  | nil => intro base h; exact absurd h.choose_spec (List.not_mem_nil _)
  | cons e rest ih =>
    intro base hk
    rw [List.foldl_cons]
    by_cases hr : ∃ vs, (k, vs) ∈ rest
    · exact ih _ hr
    · have hrest : ∀ vs, (k, vs) ∉ rest := fun vs hv => hr ⟨vs, hv⟩
      obtain ⟨vs, hv⟩ := hk
      have he : e = (k, vs) := by
        rcases List.mem_cons.mp hv with h | h
        · exact h.symm
        · exact absurd h (hrest vs)
      rw [lookup_foldl_set_of_not_mem src k rest _ hrest, he]
      exact lookupAssoc_setAssoc_self base k (HttpHeader.get src k)

/-- Shared closed form used by the no-exact-match claims: when no rule of
the request's bucket carries a non-empty query equal to the raw query, the
lookup returns the last empty-query rule of the bucket (absent included). -/
theorem findResponse_no_exact_helper (s : Server) (req : Request)
    (hwf : BucketsWellFormed s)
    (hnone : ∀ r ∈ s.responses req.method req.path,
      ¬(r.query ≠ "" ∧ r.query = req.rawQuery)) :
    s.findResponse req =
      ((s.responses req.method req.path).filter emptyQuery).getLast? := by
  rw [findResponse_eq_scanResult s req (fun r hr => (hwf _ _ r hr).2)]
  unfold scanResult
  have hf : (s.responses req.method req.path).find? (exactMatch req.rawQuery) = none := by
    rw [List.find?_eq_none]
    intro x hx
    simp only [exactMatch, decide_eq_true_eq]
    exact hnone x hx
  rw [hf]
  cases ((s.responses req.method req.path).filter emptyQuery).getLast? with
  | none => rfl
  | some r => rfl

/-! ### Concrete material used by witnesses and counterexamples -/

/-- A freshly constructed server: empty store, no logger, no fallback. -/
def baseServer : Server :=
  { responses := emptyResponses, hasLogger := false,
    unknownRequestHandler := none, httpServer := none, url := "" }

/-- An empty-query (default) rule on `GET /hello`. -/
def ruleDefault : Response :=
  { method := "GET", path := "/hello", body := "hello, world" }

/-- An exact-query rule on `GET /hello?dummy=1`. -/
def ruleQuery : Response :=
  { method := "GET", path := "/hello", query := "dummy=1",
    body := "hello, world with query string" }

/-- A second empty-query rule on `GET /hello`, registered after
`ruleDefault`. -/
def ruleDefault2 : Response :=
  { method := "GET", path := "/hello", body := "hello, world (second)" }

theorem baseServer_wf : BucketsWellFormed baseServer :=
  bucketsWellFormed_of_empty baseServer rfl

/-! ### The claims -/

/-- C1: on a rule store satisfying the bucket invariant, if the bucket for
the request's method and path holds a rule whose stored query is non-empty
and byte-for-byte equal to the inbound raw query, then the lookup returns
the first such rule in insertion order (`List.find?`), taking precedence
over any empty-query rule regardless of registration order; the comparison
is plain string equality. -/
theorem findResponse_exact_query_first (s : Server) (req : Request)
    (hwf : BucketsWellFormed s)
    (hex : ∃ r ∈ s.responses req.method req.path,
      r.query ≠ "" ∧ r.query = req.rawQuery) :
    s.findResponse req =
      (s.responses req.method req.path).find? (exactMatch req.rawQuery) := by
  rw [findResponse_eq_scanResult s req (fun r hr => (hwf _ _ r hr).2)]
  unfold scanResult
  have hsome : ((s.responses req.method req.path).find? (exactMatch req.rawQuery)).isSome := by
    rw [List.find?_isSome]
    obtain ⟨r, hr, hq⟩ := hex
    exact ⟨r, hr, by simp only [exactMatch, decide_eq_true_eq]; exact hq⟩
  cases hf : (s.responses req.method req.path).find? (exactMatch req.rawQuery) with
  | none => rw [hf] at hsome; cases hsome
  | some y => rfl

theorem findResponse_exact_query_first_witness :
    BucketsWellFormed (baseServer.addResponses [ruleDefault, ruleQuery]) ∧
    (∃ r ∈ (baseServer.addResponses [ruleDefault, ruleQuery]).responses "GET" "/hello",
      r.query ≠ "" ∧ r.query = "dummy=1") ∧
    (baseServer.addResponses [ruleDefault, ruleQuery]).findResponse
        ⟨"GET", "/hello", "dummy=1"⟩ =
      ((baseServer.addResponses [ruleDefault, ruleQuery]).responses "GET" "/hello").find?
        (exactMatch "dummy=1") := by
  have hwf : BucketsWellFormed (baseServer.addResponses [ruleDefault, ruleQuery]) :=
    bucketsWellFormed_addResponses baseServer _ baseServer_wf
  have hmem : ruleQuery ∈
      (baseServer.addResponses [ruleDefault, ruleQuery]).responses "GET" "/hello" := by
    rw [show (baseServer.addResponses [ruleDefault, ruleQuery]).responses "GET" "/hello"
        = [ruleDefault, ruleQuery] from rfl]
    exact List.mem_cons_of_mem _ (List.mem_cons_self _ _)
  have hex : ∃ r ∈ (baseServer.addResponses [ruleDefault, ruleQuery]).responses "GET" "/hello",
      r.query ≠ "" ∧ r.query = "dummy=1" :=
    ⟨ruleQuery, hmem, by decide, by decide⟩
  exact ⟨hwf, hex,
    findResponse_exact_query_first (baseServer.addResponses [ruleDefault, ruleQuery])
      ⟨"GET", "/hello", "dummy=1"⟩ hwf hex⟩

/-- C2: on a rule store satisfying the bucket invariant, if no rule of the
request's bucket carries a non-empty query equal to the raw query, the
lookup returns the last-inserted empty-query rule of the bucket
(`getLast?` of the empty-query rules), and absent when the bucket has no
empty-query rule or does not exist. -/
theorem findResponse_fallback_last_empty (s : Server) (req : Request)
    (hwf : BucketsWellFormed s)
    (hnone : ∀ r ∈ s.responses req.method req.path,
      ¬(r.query ≠ "" ∧ r.query = req.rawQuery)) :
    s.findResponse req =
      ((s.responses req.method req.path).filter emptyQuery).getLast? :=
  findResponse_no_exact_helper s req hwf hnone

theorem findResponse_fallback_last_empty_witness :
    BucketsWellFormed (baseServer.addResponses [ruleDefault, ruleQuery]) ∧
    (∀ r ∈ (baseServer.addResponses [ruleDefault, ruleQuery]).responses "GET" "/hello",
      ¬(r.query ≠ "" ∧ r.query = "dummy=2")) ∧
    (baseServer.addResponses [ruleDefault, ruleQuery]).findResponse
        ⟨"GET", "/hello", "dummy=2"⟩ =
      (((baseServer.addResponses [ruleDefault, ruleQuery]).responses "GET" "/hello").filter
        emptyQuery).getLast? := by
  have hwf : BucketsWellFormed (baseServer.addResponses [ruleDefault, ruleQuery]) :=
    bucketsWellFormed_addResponses baseServer _ baseServer_wf
  have hnone : ∀ r ∈ (baseServer.addResponses [ruleDefault, ruleQuery]).responses "GET" "/hello",
      ¬(r.query ≠ "" ∧ r.query = "dummy=2") := by
    rw [show (baseServer.addResponses [ruleDefault, ruleQuery]).responses "GET" "/hello"
        = [ruleDefault, ruleQuery] from rfl]
    decide
  exact ⟨hwf, hnone,
    findResponse_fallback_last_empty (baseServer.addResponses [ruleDefault, ruleQuery])
      ⟨"GET", "/hello", "dummy=2"⟩ hwf hnone⟩

/-- C3 counterexample: two empty-query rules on the same method and path,
registered in order; the lookup returns the last-inserted one, not the
first-inserted one, refuting "the first-inserted non-query rule is the
fallback". -/
theorem findResponse_not_first_empty :
    (baseServer.addResponses [ruleDefault, ruleDefault2]).findResponse
        ⟨"GET", "/hello", ""⟩ = some ruleDefault2 ∧
    some ruleDefault2 ≠ some ruleDefault := by
  constructor
  · rfl
  · intro h
    exact absurd (congrArg Response.body (Option.some.inj h)) (by decide)

/-- C3 amended: within a bucket insertion order is preserved (the bucket of
a store built by the add operations is the insertion-ordered sublist of the
added rules keyed to it), and the *last*-inserted empty-query rule is the
fallback returned when no exact query match exists. -/
theorem bucket_order_last_empty_fallback (base : Server) (rs : List Response)
    (m p : String) (hbase : base.responses = emptyResponses) :
    (base.addResponses rs).responses m p = rs.filter (inBucket m p) ∧
    (∀ req : Request,
      (∀ r ∈ (base.addResponses rs).responses req.method req.path,
        ¬(r.query ≠ "" ∧ r.query = req.rawQuery)) →
      (base.addResponses rs).findResponse req =
        (((base.addResponses rs).responses req.method req.path).filter
          emptyQuery).getLast?) := by
  constructor
  · rw [addResponses_responses, hbase]
    rfl
  · intro req hnone
    exact findResponse_no_exact_helper (base.addResponses rs) req
      (bucketsWellFormed_addResponses base rs (bucketsWellFormed_of_empty base hbase))
      hnone

theorem bucket_order_last_empty_fallback_witness :
    baseServer.responses = emptyResponses ∧
    ((baseServer.addResponses [ruleDefault, ruleDefault2]).responses "GET" "/hello"
      = [ruleDefault, ruleDefault2].filter (inBucket "GET" "/hello")) ∧
    (∀ req : Request,
      (∀ r ∈ (baseServer.addResponses [ruleDefault, ruleDefault2]).responses req.method req.path,
        ¬(r.query ≠ "" ∧ r.query = req.rawQuery)) →
      (baseServer.addResponses [ruleDefault, ruleDefault2]).findResponse req =
        (((baseServer.addResponses [ruleDefault, ruleDefault2]).responses req.method req.path).filter
          emptyQuery).getLast?) := by
  have h := bucket_order_last_empty_fallback baseServer [ruleDefault, ruleDefault2]
    "GET" "/hello" rfl
  exact ⟨rfl, h.1, h.2⟩

/-- The unknown-request fallback used as a concrete witness: writes 404 and
a fixed body. -/
def h404 : Handler :=
  fun _ w => { w with status := some 404, body := w.body ++ "not found from unknown handler" }

/-- A server with a logger and an unknown-request fallback, no rules. -/
def serverC4 : Server :=
  { responses := emptyResponses, hasLogger := true,
    unknownRequestHandler := some h404, httpServer := none, url := "" }

/-- C4: when the lookup finds no rule, dispatch hands exactly one
diagnostic line "unknown request: <method> <path>" to the logger when one
is configured (none otherwise), invokes the configured unknown-request
fallback handler on the request and writer, and with no fallback configured
leaves the writer untouched, so the facility's implicit default (200, empty
body) applies; the branch is total, never a failure. -/
theorem handleRequest_unknown_request (s : Server) (req : Request) (w : RespWriter)
    (h : s.findResponse req = none) :
    (s.handleRequest req w).2.2 =
      (if s.hasLogger then ["unknown request: " ++ req.method ++ " " ++ req.path]
       else []) ∧
    (∀ f, s.unknownRequestHandler = some f → (s.handleRequest req w).2.1 = f req w) ∧
    (s.unknownRequestHandler = none → (s.handleRequest req w).2.1 = w) := by
  cases hu : s.unknownRequestHandler with
  | some f =>
    have key : s.handleRequest req w =
        (s, f req w, s.logf ("unknown request: " ++ req.method ++ " " ++ req.path)) := by
      unfold Server.handleRequest
      rw [h, hu]
    rw [key]
    refine ⟨rfl, ?_, ?_⟩
    · intro g hg
      rw [Option.some.inj hg]
    · intro hg
      cases hg
  | none =>
    have key : s.handleRequest req w =
        (s, w, s.logf ("unknown request: " ++ req.method ++ " " ++ req.path)) := by
      unfold Server.handleRequest
      rw [h, hu]
    rw [key]
    refine ⟨rfl, ?_, fun _ => rfl⟩
    intro g hg
    cases hg

theorem handleRequest_unknown_request_witness :
    serverC4.findResponse ⟨"GET", "/sushi", ""⟩ = none ∧
    ((serverC4.handleRequest ⟨"GET", "/sushi", ""⟩ emptyWriter).2.2 =
      (if serverC4.hasLogger then ["unknown request: " ++ "GET" ++ " " ++ "/sushi"]
       else []) ∧
    (∀ f, serverC4.unknownRequestHandler = some f →
      (serverC4.handleRequest ⟨"GET", "/sushi", ""⟩ emptyWriter).2.1 = f ⟨"GET", "/sushi", ""⟩ emptyWriter) ∧
    (serverC4.unknownRequestHandler = none →
      (serverC4.handleRequest ⟨"GET", "/sushi", ""⟩ emptyWriter).2.1 = emptyWriter)) :=
  ⟨rfl, handleRequest_unknown_request serverC4 ⟨"GET", "/sushi", ""⟩ emptyWriter rfl⟩

/-- The static rule of concrete scenario 5: a custom header, a content type,
a status and a body. -/
def ruleHeaders : Response :=
  { method := "GET", path := "/hdr", code := 201, contentType := "text/plain",
    body := "payload", headers := [("X-Custom-Header", ["v"])] }

def serverC5 : Server := baseServer.addResponses [ruleHeaders]

/-- C5: for a matched static rule (no handler), dispatch sets Content-Type
to the rule's contentType (writing it even when empty, as long as the
rule's own headers do not override it), sets every name of the rule's
headers mapping to that name's first stored value, writes the rule's status
code iff it is non-zero (leaving the implicit default otherwise), and
writes exactly the rule's body string. -/
theorem handleRequest_static_rule (s : Server) (req : Request) (resp : Response)
    (hfind : s.findResponse req = some resp) (hh : resp.handler = none) :
    ((∀ vs, ("Content-Type", vs) ∉ resp.headers) →
      lookupAssoc ((s.handleRequest req emptyWriter).2.1).headers "Content-Type"
        = some resp.contentType) ∧
    (∀ k vs, (k, vs) ∈ resp.headers →
      lookupAssoc ((s.handleRequest req emptyWriter).2.1).headers k
        = some (HttpHeader.get resp.headers k)) ∧
    (resp.code ≠ 0 → ((s.handleRequest req emptyWriter).2.1).status = some resp.code) ∧
    (resp.code = 0 → ((s.handleRequest req emptyWriter).2.1).status = none) ∧
    ((s.handleRequest req emptyWriter).2.1).body = resp.body := by
  have key : (s.handleRequest req emptyWriter).2.1 =
      { headers := setHeadersFold resp.headers (setAssoc [] "Content-Type" resp.contentType),
        status := if resp.code ≠ 0 then some resp.code else none,
        body := resp.body } := by
    unfold Server.handleRequest
    rw [hfind]
    dsimp only
    rw [hh]
    dsimp only
    by_cases hc : resp.code ≠ 0
    · rw [if_pos hc, if_pos hc]
      rfl
    · rw [if_neg hc, if_neg hc]
      rfl
  rw [key]
  refine ⟨?_, ?_, ?_, ?_, rfl⟩
  · intro hct
    dsimp only
    unfold setHeadersFold
    rw [lookup_foldl_set_of_not_mem resp.headers "Content-Type" resp.headers _ hct]
    exact lookupAssoc_setAssoc_self [] "Content-Type" resp.contentType
  · intro k vs hk
    dsimp only
    unfold setHeadersFold
    exact lookup_foldl_set_of_mem resp.headers k resp.headers _ ⟨vs, hk⟩
  · intro hc
    dsimp only
    rw [if_pos hc]
  · intro hc
    dsimp only
    rw [if_neg (fun hn => hn hc)]

theorem handleRequest_static_rule_witness :
    serverC5.findResponse ⟨"GET", "/hdr", ""⟩ = some ruleHeaders ∧
    ruleHeaders.handler = none ∧
    (((∀ vs, ("Content-Type", vs) ∉ ruleHeaders.headers) →
      lookupAssoc ((serverC5.handleRequest ⟨"GET", "/hdr", ""⟩ emptyWriter).2.1).headers "Content-Type"
        = some ruleHeaders.contentType) ∧
    (∀ k vs, (k, vs) ∈ ruleHeaders.headers →
      lookupAssoc ((serverC5.handleRequest ⟨"GET", "/hdr", ""⟩ emptyWriter).2.1).headers k
        = some (HttpHeader.get ruleHeaders.headers k)) ∧
    (ruleHeaders.code ≠ 0 →
      ((serverC5.handleRequest ⟨"GET", "/hdr", ""⟩ emptyWriter).2.1).status = some ruleHeaders.code) ∧
    (ruleHeaders.code = 0 →
      ((serverC5.handleRequest ⟨"GET", "/hdr", ""⟩ emptyWriter).2.1).status = none) ∧
    ((serverC5.handleRequest ⟨"GET", "/hdr", ""⟩ emptyWriter).2.1).body = ruleHeaders.body) :=
  ⟨rfl, rfl, handleRequest_static_rule serverC5 ⟨"GET", "/hdr", ""⟩ ruleHeaders rfl rfl⟩

/-- The delegated handler of concrete scenario 3. -/
def customHandler : Handler :=
  fun _ w => { w with status := some 200, body := w.body ++ "hello, world from custom handler" }

/-- A rule carrying both a handler and static fields, to exhibit that the
handler wins. -/
def ruleBoth : Response :=
  { method := "GET", path := "/hello", code := 500, contentType := "text/html",
    body := "ignored static body", headers := [("X-Ignored", ["x"])],
    handler := some customHandler }

def serverC6 : Server := baseServer.addResponses [ruleBoth]

/-- C6: for a matched rule whose handler is set, dispatch's writer outcome
is exactly the handler's output on the incoming writer — none of the rule's
static fields (status, content type, headers, body) are applied, even when
they are set. -/
theorem handleRequest_delegates_to_handler (s : Server) (req : Request)
    (w : RespWriter) (resp : Response) (f : Handler)
    (hfind : s.findResponse req = some resp) (hh : resp.handler = some f) :
    (s.handleRequest req w).2.1 = f req w := by
  unfold Server.handleRequest
  rw [hfind]
  dsimp only
  rw [hh]

theorem handleRequest_delegates_to_handler_witness :
    serverC6.findResponse ⟨"GET", "/hello", ""⟩ = some ruleBoth ∧
    ruleBoth.handler = some customHandler ∧
    (serverC6.handleRequest ⟨"GET", "/hello", ""⟩ emptyWriter).2.1 =
      customHandler ⟨"GET", "/hello", ""⟩ emptyWriter :=
  ⟨rfl, rfl,
    handleRequest_delegates_to_handler serverC6 ⟨"GET", "/hello", ""⟩ emptyWriter
      ruleBoth customHandler rfl rfl⟩

theorem addResponses_fields (s : Server) (rs : List Response) :
    (s.addResponses rs).hasLogger = s.hasLogger ∧
    (s.addResponses rs).unknownRequestHandler = s.unknownRequestHandler ∧
    (s.addResponses rs).httpServer = s.httpServer ∧
    (s.addResponses rs).url = s.url := by
  induction rs generalizing s with
  | nil => exact ⟨rfl, rfl, rfl, rfl⟩
  | cons r rest ih =>
    have hstep : s.addResponses (r :: rest) = (s.addResponse r).addResponses rest := by
      simp [Server.addResponses]
    rw [hstep]
    exact ih (s.addResponse r)

/-- C7: the add operations are total on every server and rule (no
validation, any strings accepted, never a failure); a single add appends
the rule at the end of the bucket for its own method and path — creating
the bucket when absent — and touches no other bucket; the bulk add folds
the single add over its arguments in the given order; previously stored
rules stay in place, unremoved and unreordered, and the server's other
fields are returned unchanged (fluent chaining). -/
theorem addRule_appends_and_chains (s : Server) (r : Response) (rs : List Response) :
    ((s.addResponse r).responses r.method r.path = s.responses r.method r.path ++ [r]) ∧
    (∀ m p, ¬(m = r.method ∧ p = r.path) →
      (s.addResponse r).responses m p = s.responses m p) ∧
    (s.addResponses rs = rs.foldl Server.addResponse s) ∧
    (∀ m p, (s.addResponses rs).responses m p
      = s.responses m p ++ rs.filter (inBucket m p)) ∧
    ((s.addResponses rs).hasLogger = s.hasLogger ∧
     (s.addResponses rs).unknownRequestHandler = s.unknownRequestHandler ∧
     (s.addResponses rs).httpServer = s.httpServer ∧
     (s.addResponses rs).url = s.url) := by
  refine ⟨?_, ?_, rfl, ?_, addResponses_fields s rs⟩
  · rw [addResponse_responses, if_pos ⟨rfl, rfl⟩]
  · intro m p hmp
    rw [addResponse_responses, if_neg (fun hc => hmp ⟨hc.1.symm, hc.2.symm⟩)]
  · intro m p
    exact addResponses_responses s rs m p

theorem addRule_appends_and_chains_witness :
    ((baseServer.addResponse ruleDefault).responses ruleDefault.method ruleDefault.path
      = baseServer.responses ruleDefault.method ruleDefault.path ++ [ruleDefault]) ∧
    (∀ m p, ¬(m = ruleDefault.method ∧ p = ruleDefault.path) →
      (baseServer.addResponse ruleDefault).responses m p = baseServer.responses m p) ∧
    (baseServer.addResponses [ruleQuery, ruleDefault2]
      = [ruleQuery, ruleDefault2].foldl Server.addResponse baseServer) ∧
    (∀ m p, (baseServer.addResponses [ruleQuery, ruleDefault2]).responses m p
      = baseServer.responses m p ++ [ruleQuery, ruleDefault2].filter (inBucket m p)) ∧
    ((baseServer.addResponses [ruleQuery, ruleDefault2]).hasLogger = baseServer.hasLogger ∧
     (baseServer.addResponses [ruleQuery, ruleDefault2]).unknownRequestHandler
      = baseServer.unknownRequestHandler ∧
     (baseServer.addResponses [ruleQuery, ruleDefault2]).httpServer = baseServer.httpServer ∧
     (baseServer.addResponses [ruleQuery, ruleDefault2]).url = baseServer.url) :=
  addRule_appends_and_chains baseServer ruleDefault [ruleQuery, ruleDefault2]

/-- C8: closing is idempotent — a second (or any further) close of an
already-closed server is the same state transition as the first; with the
wrapper also a no-op on a never-started server. The blocking wait of the
underlying facility's stop is outside the state embedding. -/
theorem close_idempotent (s : Server) : s.close.close = s.close := by
  cases h : s.httpServer with
  | none =>
    have h1 : s.close = s := by
      unfold Server.close
      rw [h]
    rw [h1, h1]
  | some f =>
    have h1 : s.close = { s with httpServer := some (TestFacility.close f) } := by
      unfold Server.close
      rw [h]
    have h2 : ({ s with httpServer := some (TestFacility.close f) } : Server).close
        = { s with httpServer := some (TestFacility.close (TestFacility.close f)) } := by
      unfold Server.close
      rfl
    rw [h1, h2]
    rfl

/-- C9: dispatch leaves the server — in particular the rule store — exactly
as it found it: the state handed back by `handleRequest` is the incoming
state, on every branch (unmatched, delegated, static).  Caller-supplied
handlers act only on the writer by construction, matching the claim's
exclusion of their opaque effects. -/
theorem handleRequest_preserves_store (s : Server) (req : Request) (w : RespWriter) :
    (s.handleRequest req w).1 = s ∧
    (s.handleRequest req w).1.responses = s.responses := by
  have h1 : (s.handleRequest req w).1 = s := by
    unfold Server.handleRequest
    cases s.findResponse req with
    | none =>
      dsimp only
      cases s.unknownRequestHandler with
      | some f => rfl
      | none => rfl
    | some resp =>
      dsimp only
      cases resp.handler with
      | some f => rfl
      | none => rfl
  exact ⟨h1, by rw [h1]⟩

/-- C10: in a store built only by the add operations, every rule of the
bucket keyed by a method and path carries exactly that stored method and
path (so the defensive path re-check in the scan always passes), and any
rule the lookup returns has the request's method, the request's path, and a
query that is empty or byte-for-byte the raw query. -/
theorem built_store_invariant (base : Server) (hbase : base.responses = emptyResponses)
    (rs : List Response) :
    (∀ m p r, r ∈ (base.addResponses rs).responses m p → r.method = m ∧ r.path = p) ∧
    (∀ (req : Request) (r : Response),
      (base.addResponses rs).findResponse req = some r →
      r.method = req.method ∧ r.path = req.path ∧
        (r.query = "" ∨ r.query = req.rawQuery)) := by
  have hwf : BucketsWellFormed (base.addResponses rs) :=
    bucketsWellFormed_addResponses base rs (bucketsWellFormed_of_empty base hbase)
  refine ⟨hwf, ?_⟩
  intro req r hr
  unfold Server.findResponse at hr
  by_cases h : ((base.addResponses rs).responses req.method req.path).length = 0
  · rw [if_pos h] at hr
    cases hr
  · rw [if_neg h] at hr
    rcases findLoop_some req.path req.rawQuery _ none r hr with ⟨hmem, hpath, hq⟩ | hc
    · exact ⟨(hwf req.method req.path r hmem).1, hpath, hq⟩
    · cases hc

theorem built_store_invariant_witness :
    baseServer.responses = emptyResponses ∧
    ((∀ m p r, r ∈ (baseServer.addResponses [ruleDefault, ruleQuery]).responses m p →
      r.method = m ∧ r.path = p) ∧
    (∀ (req : Request) (r : Response),
      (baseServer.addResponses [ruleDefault, ruleQuery]).findResponse req = some r →
      r.method = req.method ∧ r.path = req.path ∧
        (r.query = "" ∨ r.query = req.rawQuery))) :=
  ⟨rfl, built_store_invariant baseServer rfl [ruleDefault, ruleQuery]⟩

end Httpmocker
